import Mathlib

/-!
Verification of the dependency-analysis core of the repository
(`tools/analyze_dependencies.py`).

The Python source is shallowly embedded below:
* `extract_imports` — the regex scan over a file's text
  (pattern `use\s+(crate::|gitai::|super::|self::)?([a-zA-Z0-9_:]+)`,
  iterated non-overlapping left-to-right as `re.finditer` does);
* `categorize_module` — the first-match-wins substring classifier on a
  file's relative path;
* `refTarget` — the if/elif chain in `analyze_dependencies` mapping one
  raw import string to the target category (or dropping it);
* `buildGraph` / `analyze_dependencies` — the accumulation of the
  `dependencies` dict-of-dict-of-set, the `module_categories` dict and
  the per-file error messages over the walked file list;
* `incomingDeps` / `migrationOrder` — `print_migration_order`.

A Python `dict[str, dict[str, set[str]]]` compares equal independently of
insertion order, so the dependency graph is modelled as the set of
(source category, target category, raw reference) triples, a
`Finset (String × String × String)`; `dependencies[s][t]` is recovered by
`edgeRefs g s t`.  An outer or inner dict key exists in the Python dict
exactly when some `add` ran for it, i.e. exactly when a triple with that
key is present, so the triple set determines the dict exactly.
-/

/-- Whether the first character list starts the second one. -/
def startsWithChars : List Char → List Char → Bool
  | [], _ => true
  | _ :: _, [] => false
  | n :: ns, h :: hs => n = h && startsWithChars ns hs

/-- Whether the first character list occurs contiguously in the second. -/
def hasSubChars (needle : List Char) : List Char → Bool
  | [] => startsWithChars needle []
  | c :: hs => startsWithChars needle (c :: hs) || hasSubChars needle hs

/-- Python's `needle in haystack` substring test on strings. -/
def containsSub (needle haystack : String) : Bool :=
  hasSubChars needle.toList haystack.toList

/-- `categorize_module` from `tools/analyze_dependencies.py`: the ordered
if/elif chain of substring predicates on the relative path, falling back to
`other`. -/
def categorize_module (path : String) : String :=
  if containsSub "/domain/entities/" path then "types"
  else if containsSub "/domain/interfaces/" path then "core-interfaces"
  else if containsSub "/domain/services/" path then "core-services"
  else if containsSub "/tree_sitter/" path then "analysis"
  else if containsSub "/mcp/" path then "mcp"
  else if containsSub "/cli/" path then "cli"
  else if containsSub "/metrics/" path then "metrics"
  else if containsSub "scan.rs" path || containsSub "security_" path then "security"
  else if containsSub "review" path || containsSub "analysis.rs" path then "analysis"
  else if containsSub "config.rs" path || containsSub "git.rs" path
       || containsSub "devops.rs" path || containsSub "context.rs" path then "core"
  else "other"

/-- The closed set of categories `categorize_module` can return. -/
def categoryList : List String :=
  ["types", "core-interfaces", "core-services", "analysis", "mcp",
   "cli", "metrics", "security", "core", "other"]

/-- True when some predicate of `categorize_module` matches the path. -/
def anyCategoryPredicate (path : String) : Bool :=
  containsSub "/domain/entities/" path || containsSub "/domain/interfaces/" path
  || containsSub "/domain/services/" path || containsSub "/tree_sitter/" path
  || containsSub "/mcp/" path || containsSub "/cli/" path
  || containsSub "/metrics/" path
  || containsSub "scan.rs" path || containsSub "security_" path
  || containsSub "review" path || containsSub "analysis.rs" path
  || containsSub "config.rs" path || containsSub "git.rs" path
  || containsSub "devops.rs" path || containsSub "context.rs" path

/-- The if/elif chain in `analyze_dependencies` that assigns a raw import
string to its target category; `none` when no predicate matches (the
reference is dropped from the graph). -/
def refTarget (imp : String) : Option String :=
  if containsSub "domain::entities" imp || containsSub "gitai_types" imp then some "types"
  else if containsSub "domain::interfaces" imp || containsSub "domain::services" imp then some "core"
  else if containsSub "tree_sitter" imp then some "analysis"
  else if containsSub "mcp" imp then some "mcp"
  else if containsSub "scan" imp || containsSub "security" imp then some "security"
  else if containsSub "metrics" imp then some "metrics"
  else if containsSub "cli" imp then some "cli"
  else none

/-- Python `\s` on the ASCII range, the whitespace class used by the
`use_pattern` regex. -/
def isPySpace (c : Char) : Bool :=
  c = ' ' || c = '\t' || c = '\n' || c = '\r' || c = '\x0b' || c = '\x0c'

/-- One character of the regex class `[a-zA-Z0-9_:]`. -/
def isRefChar (c : Char) : Bool :=
  c.isAlpha || c.isDigit || c = '_' || c = ':'

/-- One attempt of the regex
`use\s+(crate::|gitai::|super::|self::)?([a-zA-Z0-9_:]+)` anchored at the
head of the character list; on success returns the captured reference
(`group(1) or '' + group(2)`) and the rest of the input after the match.

The two capture groups collapse into one maximal run of `[a-zA-Z0-9_:]`
characters after the whitespace: every alternative of the optional group 1
consists only of such characters, so when group 1 matches, the
concatenation of group 1 with the greedy group 2 is exactly that maximal
run, and when group 1 matches but nothing is left for group 2 the engine
backtracks group 1 to empty and group 2 consumes the prefix text itself.
The run must be non-empty since group 2 requires at least one character. -/
def matchUseAt (cs : List Char) : Option (String × List Char) :=
  match cs with
  | c1 :: c2 :: c3 :: rest =>
    if c1 = 'u' ∧ c2 = 's' ∧ c3 = 'e' then
      if (rest.takeWhile isPySpace).isEmpty then none
      else
        let rest2 := rest.dropWhile isPySpace
        let ident := rest2.takeWhile isRefChar
        if ident.isEmpty then none
        else some (String.mk ident, rest2.dropWhile isRefChar)
    else none
  | _ => none

theorem length_dropWhile_le (p : Char → Bool) :
    ∀ l : List Char, (l.dropWhile p).length ≤ l.length := by
  intro l
  induction l with
  | nil => simp [List.dropWhile]
  | cons c cs ih =>
    by_cases h : p c = true
    · simp only [List.dropWhile, h]
      exact Nat.le_succ_of_le ih
    · simp only [List.dropWhile, Bool.not_eq_true] at *
      simp [h]

theorem matchUseAt_rest_lt {cs rest : List Char} {r : String}
    (h : matchUseAt cs = some (r, rest)) : rest.length < cs.length := by
  match cs with
  | [] => simp [matchUseAt] at h
  | [c1] => simp [matchUseAt] at h
  | [c1, c2] => simp [matchUseAt] at h
  | c1 :: c2 :: c3 :: t =>
    simp only [matchUseAt] at h
    split at h
    · split at h
      · exact absurd h (by simp)
      · split at h
        · exact absurd h (by simp)
        · simp only [Option.some.injEq, Prod.mk.injEq] at h
          have h1 : rest.length ≤ (t.dropWhile isPySpace).length := by
            rw [← h.2]
            exact length_dropWhile_le _ _
          have h2 : (t.dropWhile isPySpace).length ≤ t.length :=
            length_dropWhile_le _ _
          simp only [List.length_cons]
          omega
    · exact absurd h (by simp)

/-- The `re.finditer` loop, with explicit structural fuel: try a match at
every position, left to right; after a successful match continue at the
first character past the match (matches never overlap), after a failure
advance one character.  Every step shortens the input, so any fuel of at
least the input length computes the full scan. -/
def scanImportsAux : Nat → List Char → List String
  | 0, _ => []
  | fuel + 1, cs =>
    match matchUseAt cs with
    | some (r, rest) => r :: scanImportsAux fuel rest
    | none =>
      match cs with
      | [] => []
      | _ :: cs2 => scanImportsAux fuel cs2

/-- The full `re.finditer` scan of the input. -/
def scanImports (cs : List Char) : List String :=
  scanImportsAux cs.length cs

/-- The fuel in `scanImports` is sufficient: once the remaining input fits
in the fuel, adding fuel changes nothing. -/
theorem scanImportsAux_fuel_irrel :
    ∀ (fuel₁ fuel₂ : Nat) (cs : List Char), cs.length ≤ fuel₁ → cs.length ≤ fuel₂ →
      scanImportsAux fuel₁ cs = scanImportsAux fuel₂ cs := by
  intro fuel₁
  induction fuel₁ with
  | zero =>
    intro fuel₂ cs h1 _
    have : cs = [] := List.length_eq_zero.mp (Nat.le_zero.mp h1)
    subst this
    cases fuel₂ <;> simp [scanImportsAux, matchUseAt]
  | succ f ih =>
    intro fuel₂ cs h1 h2
    match fuel₂, cs with
    | 0, cs =>
      have : cs = [] := List.length_eq_zero.mp (Nat.le_zero.mp h2)
      subst this
      simp [scanImportsAux, matchUseAt]
    | f2 + 1, [] => simp [scanImportsAux, matchUseAt]
    | f2 + 1, c :: cs2 =>
      simp only [scanImportsAux]
      match h : matchUseAt (c :: cs2) with
      | some (r, rest) =>
        have hlt := matchUseAt_rest_lt h
        simp only [List.length_cons] at h1 h2 hlt
        exact congrArg (fun l => r :: l) (ih f2 rest (by omega) (by omega))
      | none =>
        simp only [List.length_cons] at h1 h2
        exact ih f2 cs2 (by omega) (by omega)

/-- `extract_imports` from `tools/analyze_dependencies.py`, as a function of
the decoded file content: the ordered list of all matches of `use_pattern`,
each rendered as `prefix + module_path`. -/
def extract_imports (content : String) : List String :=
  scanImports content.toList

/-- The dependency graph: the set of
(source category, target category, raw reference) triples denoted by the
Python `dependencies` dict-of-dict-of-set. -/
abbrev Graph : Type := Finset (String × String × String)

/-- One iteration of the inner `for imp in imports` loop of
`analyze_dependencies`: add the edge triple when some target predicate
matches, otherwise leave the graph unchanged. -/
def stepRef (category : String) (g : Graph) (imp : String) : Graph :=
  match refTarget imp with
  | some t => insert (category, t, imp) g
  | none => g

/-- The whole inner loop for one file of resolved category `category`. -/
def addFile (g : Graph) (category : String) (imports : List String) : Graph :=
  imports.foldl (stepRef category) g

/-- Aggregation over a list of (source category, extracted imports) pairs,
starting from the empty graph. -/
def buildGraph (files : List (String × List String)) : Graph :=
  files.foldl (fun g p => addFile g p.1 p.2) (∅ : Graph)

/-- The triple contributed by one import of a file in `category`, if any. -/
def tripleOf (category imp : String) : Option (String × String × String) :=
  (refTarget imp).map (fun t => (category, t, imp))

/-- The reference set `dependencies[s][t]` of the Python dict. -/
def edgeRefs (g : Graph) (s t : String) : Finset String :=
  (g.filter (fun x => x.1 = s ∧ x.2.1 = t)).image (fun x => x.2.2)

/-- The incoming count of `print_migration_order`:
`incoming_deps[t] = sum over sources s of len(dependencies[s][t])`, which
equals the number of triples whose target is `t` (no self-edge exclusion
appears in the source). -/
def incomingDeps (g : Graph) (t : String) : Nat :=
  (g.filter (fun x => x.2.1 = t)).card

/-- The eight entry lines printed by `print_migration_order`, in order. -/
def migrationLines : List String :=
  ["1. gitai-types (no dependencies)",
   "2. gitai-core (depends on types)",
   "3. gitai-analysis (depends on types, core)",
   "4. gitai-security (depends on types, core)",
   "5. gitai-metrics (depends on types, core)",
   "6. gitai-mcp (depends on all)",
   "7. gitai-cli (depends on all)",
   "8. gitai-bin (final integration)"]

/-- The crate names named by the eight entries, in printed order. -/
def migrationCrates : List String :=
  ["gitai-types", "gitai-core", "gitai-analysis", "gitai-security",
   "gitai-metrics", "gitai-mcp", "gitai-cli", "gitai-bin"]

/-- `print_migration_order`: the source computes `incoming_deps` and sorts
the categories by it, but the sorted list is never used afterwards — the
function then prints the fixed entry lines.  The binding below records the
dead computation; the returned entry lines are the constant list. -/
def migrationOrder (g : Graph) : List String :=
  let _incoming := fun t => incomingDeps g t
  migrationLines

theorem mem_stepRef (category : String) (g : Graph) (imp : String)
    (x : String × String × String) :
    x ∈ stepRef category g imp ↔ x ∈ g ∨ tripleOf category imp = some x := by
  unfold stepRef tripleOf
  match h : refTarget imp with
  | some t =>
    show x ∈ insert (category, t, imp) g ↔ _
    rw [Finset.mem_insert]
    simp only [Option.map_some', Option.some.injEq, eq_comm]
    tauto
  | none => simp

theorem mem_addFile (category : String) (imports : List String) :
    ∀ (g : Graph) (x : String × String × String),
      x ∈ addFile g category imports ↔
        x ∈ g ∨ ∃ imp ∈ imports, tripleOf category imp = some x := by
  induction imports with
  | nil => intro g x; simp [addFile]
  | cons imp rest ih =>
    intro g x
    show x ∈ addFile (stepRef category g imp) category rest ↔ _
    rw [ih (stepRef category g imp) x, mem_stepRef]
    simp only [List.mem_cons]
    constructor
    · rintro ((hx | hx) | ⟨i, hi, hix⟩)
      · exact Or.inl hx
      · exact Or.inr ⟨imp, Or.inl rfl, hx⟩
      · exact Or.inr ⟨i, Or.inr hi, hix⟩
    · rintro (hx | ⟨i, (rfl | hi), hix⟩)
      · exact Or.inl (Or.inl hx)
      · exact Or.inl (Or.inr hix)
      · exact Or.inr ⟨i, hi, hix⟩

theorem mem_buildGraph (files : List (String × List String))
    (x : String × String × String) :
    x ∈ buildGraph files ↔ ∃ p ∈ files, ∃ imp ∈ p.2, tripleOf p.1 imp = some x := by
  suffices h : ∀ (g : Graph),
      x ∈ files.foldl (fun g p => addFile g p.1 p.2) g ↔
        x ∈ g ∨ ∃ p ∈ files, ∃ imp ∈ p.2, tripleOf p.1 imp = some x by
    have := h (∅ : Graph)
    unfold buildGraph
    rw [this]
    simp
  induction files with
  | nil => intro g; simp
  | cons p rest ih =>
    intro g
    show x ∈ rest.foldl _ (addFile g p.1 p.2) ↔ _
    rw [ih (addFile g p.1 p.2), mem_addFile]
    simp only [List.mem_cons]
    constructor
    · rintro ((hx | ⟨i, hi, hix⟩) | ⟨q, hq, hrest⟩)
      · exact Or.inl hx
      · exact Or.inr ⟨p, Or.inl rfl, i, hi, hix⟩
      · exact Or.inr ⟨q, Or.inr hq, hrest⟩
    · rintro (hx | ⟨q, (rfl | hq), i, hi, hix⟩)
      · exact Or.inl (Or.inl hx)
      · exact Or.inl (Or.inr ⟨i, hi, hix⟩)
      · exact Or.inr ⟨q, hq, i, hi, hix⟩

theorem buildGraph_perm {l₁ l₂ : List (String × List String)}
    (h : l₁.Perm l₂) : buildGraph l₁ = buildGraph l₂ := by
  have : ∀ x, x ∈ buildGraph l₁ ↔ x ∈ buildGraph l₂ := by
    intro x
    rw [mem_buildGraph, mem_buildGraph]
    constructor
    · rintro ⟨p, hp, rest⟩; exact ⟨p, h.mem_iff.mp hp, rest⟩
    · rintro ⟨p, hp, rest⟩; exact ⟨p, h.mem_iff.mpr hp, rest⟩
  exact Finset.ext this

instance : DecidableEq (Except String String) := fun a b =>
  match a, b with
  | Except.ok x, Except.ok y => decidable_of_iff (x = y) (by simp)
  | Except.error x, Except.error y => decidable_of_iff (x = y) (by simp)
  | Except.ok _, Except.error _ => isFalse (by simp)
  | Except.error _, Except.ok _ => isFalse (by simp)

/-- One file yielded by the `rglob` walk: its full path under the root (the
string tested by the skip filter and printed in error messages), its path
relative to the root (the string classified and recorded), and the result
of opening and decoding it (`Except.error` models the exception raised by
`open`/`read`, e.g. a `UnicodeDecodeError`). -/
structure FileEntry where
  fullPath : String
  relPath : String
  content : Except String String
deriving DecidableEq

/-- The scan state of `analyze_dependencies`: the `dependencies` graph, the
`module_categories` assignments in visit order, and the error lines printed
by the `except` branch, in visit order. -/
structure ScanState where
  graph : Graph
  cats : List (String × String)
  warnings : List String
deriving DecidableEq

/-- The `continue` filter of the walk loop:
`'target' in str(rust_file) or 'src.backup' in str(rust_file)`. -/
def skipFile (f : FileEntry) : Bool :=
  containsSub "target" f.fullPath || containsSub "src.backup" f.fullPath

/-- The error line printed when processing one file raises. -/
def errMsg (fullPath e : String) : String :=
  "Error processing " ++ fullPath ++ ": " ++ e

/-- One iteration of the walk loop of `analyze_dependencies`: skip filtered
files; otherwise classify the relative path and record it, then either
aggregate the extracted imports or append the error line — the `try` block
covers extraction and aggregation, so a failing file leaves the graph
untouched. -/
def processFile (st : ScanState) (f : FileEntry) : ScanState :=
  if skipFile f then st
  else
    let category := categorize_module f.relPath
    match f.content with
    | Except.ok text =>
      { graph := addFile st.graph category (extract_imports text),
        cats := st.cats ++ [(f.relPath, category)],
        warnings := st.warnings }
    | Except.error e =>
      { graph := st.graph,
        cats := st.cats ++ [(f.relPath, category)],
        warnings := st.warnings ++ [errMsg f.fullPath e] }

/-- `analyze_dependencies` from `tools/analyze_dependencies.py`, as a
function of the walked file list. -/
def analyze_dependencies (files : List FileEntry) : ScanState :=
  files.foldl processFile ⟨(∅ : Graph), [], []⟩

/-- The outcome of one whole run of the scan.  The per-file `try/except`
catches every exception inside the loop body and everything else in the
function is total, so the run has no failing path; the `Except` result type
makes the absence of an aborting outcome expressible.  A root that does not
exist or is not a directory is not checked anywhere in the source: `rglob`
on such a root yields no files, i.e. the run receives the empty walk. -/
def runScan (files : List FileEntry) : Except String ScanState :=
  Except.ok (analyze_dependencies files)

/-- The (source category, imports) contribution of one walked file to the
dependency graph, if any. -/
def contribOf (f : FileEntry) : Option (String × List String) :=
  if skipFile f then none
  else
    match f.content with
    | Except.ok text => some (categorize_module f.relPath, extract_imports text)
    | Except.error _ => none

/-- The `module_categories` entry of one walked file, if any. -/
def catEntryOf (f : FileEntry) : Option (String × String) :=
  if skipFile f then none
  else some (f.relPath, categorize_module f.relPath)

/-- The printed error line of one walked file, if any. -/
def warnOf (f : FileEntry) : Option String :=
  if skipFile f then none
  else
    match f.content with
    | Except.ok _ => none
    | Except.error e => some (errMsg f.fullPath e)

theorem processFile_graph (st : ScanState) (f : FileEntry) :
    (processFile st f).graph =
      match contribOf f with
      | some p => addFile st.graph p.1 p.2
      | none => st.graph := by
  unfold processFile contribOf
  by_cases h : skipFile f = true
  · simp [h]
  · simp only [Bool.not_eq_true] at h
    cases f.content <;> simp [h]

theorem processFile_cats (st : ScanState) (f : FileEntry) :
    (processFile st f).cats = st.cats ++ (catEntryOf f).toList := by
  unfold processFile catEntryOf
  by_cases h : skipFile f = true
  · simp [h]
  · simp only [Bool.not_eq_true] at h
    cases f.content <;> simp [h]

theorem processFile_warnings (st : ScanState) (f : FileEntry) :
    (processFile st f).warnings = st.warnings ++ (warnOf f).toList := by
  unfold processFile warnOf
  by_cases h : skipFile f = true
  · simp [h]
  · simp only [Bool.not_eq_true] at h
    cases f.content <;> simp [h]

theorem scan_graph_general (files : List FileEntry) :
    ∀ st : ScanState,
      (files.foldl processFile st).graph =
        (files.filterMap contribOf).foldl (fun g p => addFile g p.1 p.2) st.graph := by
  induction files with
  | nil => intro st; simp
  | cons f rest ih =>
    intro st
    rw [List.foldl_cons, ih (processFile st f), List.filterMap_cons]
    rw [processFile_graph]
    match contribOf f with
    | some p => simp
    | none => simp

/-- The final graph of a scan is the aggregation of the per-file
contributions. -/
theorem scan_graph (files : List FileEntry) :
    (analyze_dependencies files).graph = buildGraph (files.filterMap contribOf) := by
  unfold analyze_dependencies buildGraph
  exact scan_graph_general files _

theorem scan_cats_general (files : List FileEntry) :
    ∀ st : ScanState,
      (files.foldl processFile st).cats = st.cats ++ files.filterMap catEntryOf := by
  induction files with
  | nil => intro st; simp
  | cons f rest ih =>
    intro st
    rw [List.foldl_cons, ih (processFile st f), List.filterMap_cons, processFile_cats]
    match catEntryOf f with
    | some p => simp
    | none => simp

/-- The final `module_categories` entries of a scan, in visit order. -/
theorem scan_cats (files : List FileEntry) :
    (analyze_dependencies files).cats = files.filterMap catEntryOf := by
  unfold analyze_dependencies
  rw [scan_cats_general files _]
  simp

theorem scan_warnings_general (files : List FileEntry) :
    ∀ st : ScanState,
      (files.foldl processFile st).warnings = st.warnings ++ files.filterMap warnOf := by
  induction files with
  | nil => intro st; simp
  | cons f rest ih =>
    intro st
    rw [List.foldl_cons, ih (processFile st f), List.filterMap_cons, processFile_warnings]
    match warnOf f with
    | some p => simp
    | none => simp

/-- The warning lines of a scan, in visit order. -/
theorem scan_warnings (files : List FileEntry) :
    (analyze_dependencies files).warnings = files.filterMap warnOf := by
  unfold analyze_dependencies
  rw [scan_warnings_general files _]
  simp

/-- If no position of the input matches the pattern, the scan returns the
empty list, whatever the fuel. -/
theorem scanImportsAux_all_none :
    ∀ (fuel : Nat) (cs : List Char), cs.length ≤ fuel →
      (∀ n ≤ cs.length, matchUseAt (cs.drop n) = none) →
      scanImportsAux fuel cs = [] := by
  intro fuel
  induction fuel with
  | zero =>
    intro cs _ _
    rfl
  | succ f ih =>
    intro cs hlen hall
    match cs with
    | [] => rfl
    | c :: cs2 =>
      have h0 : matchUseAt (c :: cs2) = none := hall 0 (Nat.zero_le _)
      simp only [scanImportsAux, h0]
      apply ih cs2
      · simp only [List.length_cons] at hlen
        omega
      · intro n hn
        have := hall (n + 1) (by simp only [List.length_cons]; omega)
        simpa using this

set_option maxHeartbeats 1000000 in
/-- C6: the Module Classifier is a total function over all path strings:
for every input path, including the empty string and paths matching no
predicate, `categorize_module path` is one of the fixed categories, and it
is `other` whenever no predicate matches; in particular
`categorize_module "weird/unmatched/file.ext" = "other"`. -/
theorem c6_classifier_total :
    (∀ path : String, categorize_module path ∈ categoryList) ∧
    (∀ path : String, anyCategoryPredicate path = false → categorize_module path = "other") ∧
    categorize_module "weird/unmatched/file.ext" = "other" ∧
    categorize_module "" = "other" := by
  refine ⟨?_, ?_, by decide, by decide⟩
  · intro path
    unfold categorize_module
    split_ifs <;> decide
  · intro path h
    unfold anyCategoryPredicate at h
    simp only [Bool.or_eq_false_iff] at h
    obtain ⟨⟨⟨⟨⟨⟨⟨⟨⟨⟨⟨⟨⟨⟨h1, h2⟩, h3⟩, h4⟩, h5⟩, h6⟩, h7⟩, h8⟩, h9⟩, h10⟩, h11⟩, h12⟩, h13⟩, h14⟩, h15⟩ := h
    unfold categorize_module
    rw [h1, h2, h3, h4, h5, h6, h7, h8, h9, h10, h11, h12, h13, h14, h15]
    simp

/-- Witness for C6 at the concrete path `zzz/unknown.txt`, where no
predicate matches. -/
theorem c6_classifier_total_witness :
    anyCategoryPredicate "zzz/unknown.txt" = false ∧
    categorize_module "zzz/unknown.txt" = "other" ∧
    categorize_module "zzz/unknown.txt" ∈ categoryList :=
  ⟨by decide, c6_classifier_total.2.1 "zzz/unknown.txt" (by decide),
   c6_classifier_total.1 "zzz/unknown.txt"⟩

/-- C7: extraction precision: a text whose every position fails the
pattern yields the empty sequence; the spec's example text containing one
`use crate::domain::entities::Foo` yields exactly the one reference built
from the recognized qualifier and the dotted identifier; duplicated
constructs are preserved in textual order. -/
theorem c7_extractor_precision :
    (∀ cs : List Char,
      (∀ n ≤ cs.length, matchUseAt (cs.drop n) = none) → scanImports cs = []) ∧
    extract_imports "use crate::domain::entities::Foo" =
      ["crate::" ++ "domain::entities::Foo"] ∧
    extract_imports "let x = 1; // no module references here" = [] ∧
    extract_imports "use crate::cli::Cmd;\nuse crate::cli::Cmd;" =
      ["crate::cli::Cmd", "crate::cli::Cmd"] := by
  refine ⟨?_, by decide, by decide, by decide⟩
  intro cs hall
  exact scanImportsAux_all_none cs.length cs (Nat.le_refl _) hall

/-- Witness for C7: the zero-construct clause applied to a concrete text. -/
theorem c7_extractor_precision_witness :
    scanImports (String.toList "let y = 2") = [] :=
  c7_extractor_precision.1 (String.toList "let y = 2") (by decide)

/-- A target category assigned by the aggregator is never `other`. -/
theorem refTarget_ne_other (i t : String) (h : refTarget i = some t) : t ≠ "other" := by
  unfold refTarget at h
  split_ifs at h <;> injection h with h2 <;> subst h2 <;> decide

/-- Dropping an import that matches no target predicate does not change the
result of one file's aggregation. -/
theorem addFile_drop (g : Graph) (category : String) (i₁ i₂ : List String)
    (imp : String) (h : refTarget imp = none) :
    addFile g category (i₁ ++ imp :: i₂) = addFile g category (i₁ ++ i₂) := by
  unfold addFile
  rw [List.foldl_append, List.foldl_append, List.foldl_cons]
  congr 1
  unfold stepRef
  rw [h]

/-- C4: a raw reference matching none of the target-category predicates is
dropped: the final graph is exactly the one built without that reference,
and no edge toward `other` is ever created. -/
theorem c4_unmatched_reference_dropped (imp : String) (h : refTarget imp = none) :
    (∀ (files₁ files₂ : List (String × List String)) (category : String)
        (i₁ i₂ : List String),
      buildGraph (files₁ ++ (category, i₁ ++ imp :: i₂) :: files₂) =
        buildGraph (files₁ ++ (category, i₁ ++ i₂) :: files₂)) ∧
    (∀ (files : List (String × List String)) (x : String × String × String),
      x ∈ buildGraph files → x.2.1 ≠ "other") := by
  constructor
  · intro files₁ files₂ category i₁ i₂
    unfold buildGraph
    rw [List.foldl_append, List.foldl_append, List.foldl_cons, List.foldl_cons]
    congr 1
    exact addFile_drop _ _ _ _ _ h
  · intro files x hx
    rw [mem_buildGraph] at hx
    obtain ⟨p, hp, i, hi, hix⟩ := hx
    unfold tripleOf at hix
    cases hrt : refTarget i with
    | none => rw [hrt] at hix; simp at hix
    | some t =>
      rw [hrt] at hix
      simp only [Option.map_some', Option.some.injEq] at hix
      rw [← hix]
      exact refTarget_ne_other i t hrt

/-- Witness for C4: `foo::bar` matches no target predicate and its presence
does not change the graph of a concrete file list. -/
theorem c4_unmatched_reference_dropped_witness :
    refTarget "foo::bar" = none ∧
    buildGraph [("core", ["foo::bar", "crate::cli::run"])] =
      buildGraph [("core", ["crate::cli::run"])] := by
  refine ⟨by decide, ?_⟩
  have := (c4_unmatched_reference_dropped "foo::bar" (by decide)).1 [] [] "core" []
    ["crate::cli::run"]
  simpa using this

/-- C5: edge reference-sets have set semantics: two files of the same
source category contributing the same raw reference yield the same graph as
one of them, and the resulting edge holds that reference exactly once. -/
theorem c5_edge_set_semantics (category imp t : String) (h : refTarget imp = some t)
    (rest : List (String × List String)) :
    buildGraph ((category, [imp]) :: (category, [imp]) :: rest) =
      buildGraph ((category, [imp]) :: rest) ∧
    edgeRefs (buildGraph [(category, [imp]), (category, [imp])]) category t = {imp} ∧
    (edgeRefs (buildGraph [(category, [imp]), (category, [imp])]) category t).card = 1 := by
  have hg : buildGraph [(category, [imp]), (category, [imp])] = {(category, t, imp)} := by
    simp [buildGraph, addFile, stepRef, h]
  have he : edgeRefs {(category, t, imp)} category t = {imp} := by
    unfold edgeRefs
    rw [Finset.filter_singleton]
    simp
  refine ⟨?_, by rw [hg, he], by rw [hg, he]; exact Finset.card_singleton _⟩
  apply Finset.ext
  intro x
  rw [mem_buildGraph, mem_buildGraph]
  constructor
  · rintro ⟨p, hp, hrest⟩
    rcases List.mem_cons.mp hp with rfl | hp2
    · exact ⟨_, List.mem_cons_self _ _, hrest⟩
    · rcases List.mem_cons.mp hp2 with rfl | hp3
      · exact ⟨_, List.mem_cons_self _ _, hrest⟩
      · exact ⟨p, List.mem_cons_of_mem _ hp3, hrest⟩
  · rintro ⟨p, hp, hrest⟩
    rcases List.mem_cons.mp hp with rfl | hp2
    · exact ⟨_, List.mem_cons_self _ _, hrest⟩
    · exact ⟨p, List.mem_cons_of_mem _ (List.mem_cons_of_mem _ hp2), hrest⟩

/-- Witness for C5 at the spec's example reference, two `core` files each
contributing `crate::domain::entities::Foo`. -/
theorem c5_edge_set_semantics_witness :
    refTarget "crate::domain::entities::Foo" = some "types" ∧
    buildGraph [("core", ["crate::domain::entities::Foo"]),
        ("core", ["crate::domain::entities::Foo"])] =
      buildGraph [("core", ["crate::domain::entities::Foo"])] ∧
    (edgeRefs (buildGraph [("core", ["crate::domain::entities::Foo"]),
        ("core", ["crate::domain::entities::Foo"])]) "core" "types").card = 1 :=
  ⟨by decide,
   (c5_edge_set_semantics "core" "crate::domain::entities::Foo" "types" (by decide) []).1,
   (c5_edge_set_semantics "core" "crate::domain::entities::Foo" "types" (by decide) []).2.2⟩

/-- C1 counterexample: a graph whose only edge is the self-edge of `core`
(from the import `crate::domain::interfaces::Repo` in a `core` file) gets
incoming count 1, not 0 — `print_migration_order` does not exclude
self-edges from `incoming_deps`. -/
theorem c1_self_edge_counted_counterexample :
    (∀ x ∈ buildGraph [("core", ["crate::domain::interfaces::Repo"])], x.1 = x.2.1) ∧
    incomingDeps (buildGraph [("core", ["crate::domain::interfaces::Repo"])]) "core" = 1 := by
  decide

/-- C1 amended: the incoming count of a category sums the distinct raw
references over all incoming edges including self-edges; in particular, for
a category whose incoming edges are all self-edges the count equals the
number of distinct self-referential references (not zero). -/
theorem c1_incoming_count_includes_self_edges (g : Graph) (t : String)
    (h : ∀ x ∈ g, x.2.1 = t → x.1 = t) :
    incomingDeps g t = (edgeRefs g t t).card := by
  unfold incomingDeps edgeRefs
  have hfilter : g.filter (fun x => x.2.1 = t) = g.filter (fun x => x.1 = t ∧ x.2.1 = t) := by
    apply Finset.filter_congr
    intro x hx
    constructor
    · intro h2
      exact ⟨h x hx h2, h2⟩
    · intro h2
      exact h2.2
  rw [hfilter, Finset.card_image_of_injOn]
  intro x hx y hy hxy
  rw [Finset.coe_filter, Set.mem_setOf_eq] at hx hy
  obtain ⟨x1, x2, x3⟩ := x
  obtain ⟨y1, y2, y3⟩ := y
  simp only at hx hy hxy
  obtain ⟨_, hx1, hx2⟩ := hx
  obtain ⟨_, hy1, hy2⟩ := hy
  subst hx1
  subst hx2
  subst hy1
  subst hy2
  subst hxy
  rfl

/-- Witness for C1 amended, on a concrete all-self-edge graph. -/
theorem c1_incoming_count_includes_self_edges_witness :
    (∀ x ∈ buildGraph [("core", ["crate::domain::interfaces::X"])],
      x.2.1 = "core" → x.1 = "core") ∧
    incomingDeps (buildGraph [("core", ["crate::domain::interfaces::X"])]) "core" =
      (edgeRefs (buildGraph [("core", ["crate::domain::interfaces::X"])]) "core" "core").card :=
  ⟨by decide, c1_incoming_count_includes_self_edges _ "core" (by decide)⟩

/-- C2 counterexample: a graph whose only source category is `other` (one
file of category `other` importing `mcp_service`) — `other` appears as a
source, yet no entry of the emitted order mentions it, so the fixed
8-entry output does not cover every category appearing in the graph. -/
theorem c2_coverage_counterexample :
    (∃ t r, ("other", t, r) ∈ buildGraph [("other", ["mcp_service"])]) ∧
    (migrationOrder (buildGraph [("other", ["mcp_service"])])).all
      (fun line => !(containsSub "other" line)) = true := by
  refine ⟨⟨"mcp", "mcp_service", by decide⟩, by decide⟩

/-- C2 amended: the Order Planner terminates on every graph, cyclic ones
included, and returns the same fixed 8-entry sequence regardless of input;
on the concrete cyclic graph `analysis`→`security`→`analysis` it returns
that order, but the output need not cover every category of the graph. -/
theorem c2_planner_constant_total_order :
    (∀ g : Graph, migrationOrder g = migrationLines) ∧
    migrationLines.length = 8 ∧
    ("analysis", "security", "security_scan_x") ∈
      buildGraph [("analysis", ["security_scan_x"]), ("security", ["tree_sitter_rust"])] ∧
    ("security", "analysis", "tree_sitter_rust") ∈
      buildGraph [("analysis", ["security_scan_x"]), ("security", ["tree_sitter_rust"])] ∧
    migrationOrder (buildGraph [("analysis", ["security_scan_x"]),
      ("security", ["tree_sitter_rust"])]) = migrationLines :=
  ⟨fun _ => rfl, by decide, by decide, by decide, rfl⟩

/-- C10: the migration order emitted by `print_migration_order` is a
constant: every graph produces the identical fixed 8-entry sequence, whose
entries name gitai-types, gitai-core, gitai-analysis, gitai-security,
gitai-metrics, gitai-mcp, gitai-cli and gitai-bin in that order; the
computed incoming counts have no effect on the output. -/
theorem c10_migration_order_constant :
    (∀ g₁ g₂ : Graph, migrationOrder g₁ = migrationOrder g₂) ∧
    (∀ g : Graph, migrationOrder g = migrationLines) ∧
    migrationLines.length = 8 ∧
    ((migrationLines.zip migrationCrates).all
      (fun p => containsSub p.2 p.1)) = true :=
  ⟨fun _ _ => rfl, fun _ => rfl, by decide, by decide⟩

/-- C3: the aggregation is order-independent: scans of the same files in
any two visit orders produce the same final dependency graph and the same
migration order. -/
theorem c3_aggregation_perm_invariant (fs₁ fs₂ : List FileEntry) (h : fs₁.Perm fs₂) :
    (analyze_dependencies fs₁).graph = (analyze_dependencies fs₂).graph ∧
    migrationOrder (analyze_dependencies fs₁).graph =
      migrationOrder (analyze_dependencies fs₂).graph := by
  have hg : (analyze_dependencies fs₁).graph = (analyze_dependencies fs₂).graph := by
    rw [scan_graph, scan_graph]
    exact buildGraph_perm (h.filterMap contribOf)
  exact ⟨hg, by rw [hg]⟩

/-- A sample walked file used by the C3 witness. -/
def sampleFileA : FileEntry :=
  ⟨"src/config.rs", "config.rs", Except.ok "use crate::domain::entities::Foo"⟩

/-- A second sample walked file used by the C3 witness. -/
def sampleFileB : FileEntry :=
  ⟨"src/review.rs", "review.rs", Except.ok "use crate::metrics::M"⟩

/-- Witness for C3 on a concrete two-file tree visited in both orders. -/
theorem c3_aggregation_perm_invariant_witness :
    (analyze_dependencies [sampleFileA, sampleFileB]).graph =
      (analyze_dependencies [sampleFileB, sampleFileA]).graph :=
  (c3_aggregation_perm_invariant [sampleFileA, sampleFileB]
    [sampleFileB, sampleFileA] (List.Perm.swap sampleFileB sampleFileA [])).1

/-- C9: partial-failure tolerance: a walked file whose read or decode
fails is skipped with exactly one recorded warning, the graph equals the
graph of the scan without that file, and every other file's categorization
is preserved (the failing file itself is still categorized, since the
source records the category before the `try` block). -/
theorem c9_partial_failure_tolerance (l₁ l₂ : List FileEntry) (f : FileEntry)
    (e : String) (hc : f.content = Except.error e) (hs : skipFile f = false) :
    (analyze_dependencies (l₁ ++ f :: l₂)).graph =
      (analyze_dependencies (l₁ ++ l₂)).graph ∧
    (analyze_dependencies (l₁ ++ f :: l₂)).warnings.length =
      (analyze_dependencies (l₁ ++ l₂)).warnings.length + 1 ∧
    (analyze_dependencies (l₁ ++ f :: l₂)).cats =
      (analyze_dependencies l₁).cats ++
        (f.relPath, categorize_module f.relPath) :: (analyze_dependencies l₂).cats := by
  have hcontrib : List.filterMap contribOf (f :: l₂) = List.filterMap contribOf l₂ := by
    simp [List.filterMap_cons, contribOf, hs, hc]
  have hwarn : List.filterMap warnOf (f :: l₂) =
      errMsg f.fullPath e :: List.filterMap warnOf l₂ := by
    simp [List.filterMap_cons, warnOf, hs, hc]
  have hcat : List.filterMap catEntryOf (f :: l₂) =
      (f.relPath, categorize_module f.relPath) :: List.filterMap catEntryOf l₂ := by
    simp [List.filterMap_cons, catEntryOf, hs]
  refine ⟨?_, ?_, ?_⟩
  · rw [scan_graph, scan_graph, List.filterMap_append, List.filterMap_append, hcontrib]
  · rw [scan_warnings, scan_warnings, List.filterMap_append, List.filterMap_append, hwarn]
    simp only [List.length_append, List.length_cons]
    omega
  · rw [scan_cats, scan_cats, scan_cats, List.filterMap_append, hcat]

/-- The first five readable files of the C9 witness tree. -/
def wGood1 : List FileEntry :=
  [⟨"src/config.rs", "config.rs", Except.ok "use crate::domain::entities::A"⟩,
   ⟨"src/git.rs", "git.rs", Except.ok "use crate::domain::interfaces::B"⟩,
   ⟨"src/review.rs", "review.rs", Except.ok "use crate::metrics::C"⟩,
   ⟨"src/devops.rs", "devops.rs", Except.ok "no imports in this file"⟩,
   ⟨"src/context.rs", "context.rs", Except.ok "use crate::mcp::D"⟩]

/-- The one undecodable file of the C9 witness tree. -/
def wBad : FileEntry := ⟨"src/mystery.rs", "mystery.rs", Except.error "DecodeError"⟩

/-- The last four readable files of the C9 witness tree. -/
def wGood2 : List FileEntry :=
  [⟨"src/scan.rs", "scan.rs", Except.ok "use crate::cli::E"⟩,
   ⟨"src/security_rules.rs", "security_rules.rs", Except.ok "use gitai_types::F"⟩,
   ⟨"src/analysis.rs", "analysis.rs", Except.ok "use crate::tree_sitter::G"⟩,
   ⟨"src/main.rs", "main.rs", Except.ok "fn main is here"⟩]

/-- Witness for C9 on the spec's scenario: a tree of 10 files with 1
undecodable still yields the graph of the 9 readable ones, plus exactly
one extra warning. -/
theorem c9_partial_failure_tolerance_witness :
    (analyze_dependencies (wGood1 ++ wBad :: wGood2)).graph =
      (analyze_dependencies (wGood1 ++ wGood2)).graph ∧
    (analyze_dependencies (wGood1 ++ wBad :: wGood2)).warnings.length =
      (analyze_dependencies (wGood1 ++ wGood2)).warnings.length + 1 :=
  ⟨(c9_partial_failure_tolerance wGood1 wGood2 wBad "DecodeError" rfl rfl).1,
   (c9_partial_failure_tolerance wGood1 wGood2 wBad "DecodeError" rfl rfl).2.1⟩

/-- C8 counterexample: the source performs no root validation, so the walk
of a root that does not exist or is not a directory (which yields no
files) completes normally with empty results instead of aborting with an
`InvalidRoot` error before file processing. -/
theorem c8_invalid_root_counterexample :
    runScan [] = Except.ok ⟨(∅ : Graph), [], []⟩ := rfl

/-- C8 amended: no condition aborts the run: every walked file list — in
particular the empty walk produced by an invalid root — yields a normal
completion, with empty results in the invalid-root case. -/
theorem c8_scan_never_aborts :
    (∀ files : List FileEntry, ∃ st : ScanState, runScan files = Except.ok st) ∧
    runScan [] = Except.ok ⟨(∅ : Graph), [], []⟩ :=
  ⟨fun files => ⟨analyze_dependencies files, rfl⟩, rfl⟩
